import Mathlib

/-!
Verification of the event-scheduling core of the strategy engine
(`src/se/domain2/engine/engine.py`), via a shallow embedding.

Timestamps and timedeltas are modelled as `Int` (seconds since an epoch).
Prices and other numeric payload fields are modelled as `Int`: no claim
depends on fractional arithmetic, the values are only carried around and
compared for equality.  The trading calendar is an external collaborator
and is modelled as a record of functions.  Python object identity (used
by the engine registry, which keys on `EventDefinition` objects) is
modelled by an explicit `id` token on `EventDefinition`.
-/

namespace Engine2

/-- A trading calendar, consumed as an opaque service
(`trading_calendars.TradingCalendar`): `next_open`/`next_close` lookups
plus the bulk open/close schedules. -/
structure TradingCalendar where
  next_open : Int → Int
  next_close : Int → Int
  opens : List Int
  closes : List Int

/-- `EventDefinitionType` enum. -/
inductive EventDefinitionType where
  | TIME
  | DATA
deriving DecidableEq, Repr

/-- `EventDataType` enum. -/
inductive EventDataType where
  | BAR
  | TICK
  | OTHER
deriving DecidableEq, Repr

/-- Which concrete `Rule` subclass a rule instance is. -/
inductive RuleKind where
  | marketOpen
  | marketClose
deriving DecidableEq, Repr

/-- A time rule (`Rule` subclass): its kind plus the minute/second offsets.
The mutable cached field `_next_time` is held as explicit external state
(an `Option Int`) threaded through `is_match`. -/
structure Rule where
  kind : RuleKind
  minute_offset : Int
  second_offset : Int
deriving DecidableEq, Repr

/-- `MarketOpen.next_time` / `MarketClose.next_time`.  For the open
variant the calendar's open is one minute after the true open, hence
the `minute_offset - 1` correction; if the shifted instant is not
strictly after `current_time` the rule advances to the following
session. -/
def Rule.next_time (r : Rule) (calendar : TradingCalendar) (current_time : Int) : Int :=
  match r.kind with
  | RuleKind.marketOpen =>
    let dt := calendar.next_open current_time + 60 * (r.minute_offset - 1) + r.second_offset
    if dt ≤ current_time then
      calendar.next_open (calendar.next_open current_time) + 60 * (r.minute_offset - 1) +
        r.second_offset
    else dt
  | RuleKind.marketClose =>
    let dt := calendar.next_close current_time + 60 * r.minute_offset + r.second_offset
    if dt ≤ current_time then
      calendar.next_close (calendar.next_close current_time) + 60 * r.minute_offset +
        r.second_offset
    else dt

/-- `Rule.is_match`: lazily initialize the cached `_next_time`, fire when
`dt` has reached it and recompute the cache.  Returns the boolean result
together with the new cached state. -/
def Rule.is_match (r : Rule) (calendar : TradingCalendar) (dt : Int) (st : Option Int) :
    Bool × Option Int :=
  let nt := match st with
    | none => r.next_time calendar dt
    | some x => x
  if nt ≤ dt then (true, some (r.next_time calendar dt))
  else (false, some nt)

/-- `BarEventConfig`: flags and deltas controlling bar→tick synthesis. -/
structure BarEventConfig where
  market_open_as_tick : Bool := false
  market_open_as_tick_delta : Int := 0
  bar_open_as_tick : Bool := false
  bar_open_as_tick_delta : Int := 0
  market_close_as_tick : Bool := false
  market_close_as_tick_delta : Int := 0
deriving DecidableEq, Repr

/-- `EventDefinition`.  The `id` field models Python object identity:
distinct objects are distinct registry keys even with equal fields. -/
structure EventDefinition where
  id : Nat
  ed_type : EventDefinitionType
  time_rule : Option Rule := none
  ts_type_name : Option String := none
  event_data_type : Option EventDataType := none
  bar_config : Option BarEventConfig := none
  order : Int := 0
deriving DecidableEq, Repr

/-- `EventDefinition.compareTo`: same trigger kind compares by tie-break
order, otherwise a TIME definition compares greater than a DATA one. -/
def EventDefinition.compareTo (self other : EventDefinition) : Int :=
  if self.ed_type = other.ed_type then self.order - other.order
  else if self.ed_type = EventDefinitionType.TIME then 1
  else -1

/-- A `Bar` payload (from `se.domain2.account.account`). -/
structure Bar where
  ts_type_name : String
  visible_time : Int
  code : String
  start_time : Int
  open_price : Int
  high_price : Int
  low_price : Int
  close_price : Int
  volume : Int
deriving DecidableEq, Repr

/-- A `Tick` payload. -/
structure Tick where
  ts_type_name : String
  visible_time : Int
  code : String
  price : Int
  size : Int
deriving DecidableEq, Repr

/-- An event payload: a bar, a tick, or an opaque column table (the `{}`
payload of time events is the empty table). -/
inductive EventData where
  | bar (b : Bar)
  | tick (t : Tick)
  | table (d : List (String × Int))
deriving DecidableEq, Repr

/-- `Event`. -/
structure Event where
  event_definition : EventDefinition
  visible_time : Int
  data : EventData
deriving DecidableEq, Repr

/-- `Event.__lt__`: primary key visible time; on a tie, the definition
comparison decides. -/
def Event.lt (self other : Event) : Bool :=
  if self.visible_time = other.visible_time then
    decide (self.event_definition.compareTo other.event_definition < 0)
  else decide (self.visible_time < other.visible_time)

/-- The comparison Python's stable `list.sort` effectively uses when only
`__lt__` is defined: `a` may stay before `b` iff `¬ (b < a)`. -/
def Event.le (self other : Event) : Bool :=
  ! Event.lt other self

/-- `EventLine`: the pending-event buffer. -/
structure EventLine where
  events : List Event
deriving DecidableEq, Repr

/-- `EventLine.add_all`: extend the buffer with the new events, then
re-sort the whole buffer with the stable sort by `Event.__lt__`
(`list.sort`). -/
def EventLine.add_all (el : EventLine) (evs : List Event) : EventLine :=
  { events := (el.events ++ evs).mergeSort Event.le }

/-- `EventLine.pop_event`: remove and return the front event, or `none`
on an empty buffer.  Returns the popped event together with the buffer
left behind. -/
def EventLine.pop_event (el : EventLine) : Option Event × EventLine :=
  match el.events with
  | [] => (none, { events := [] })
  | e :: rest => (some e, { events := rest })

/-- A `Price` record: code, price value, observation instant. -/
structure Price where
  code : String
  price : Int
  time : Int
deriving DecidableEq, Repr

/-- Keep the first occurrence of each element, dropping later
duplicates; `seen` accumulates the elements already kept.  This is the
key order of a Python dict built by iterated assignment. -/
def keepFirst : List String → List String → List String
  | [], _ => []
  | c :: rest, seen =>
    if seen.contains c then keepFirst rest seen
    else c :: keepFirst rest (c :: seen)

/-- Distinct keys of a dict built by iterating over `l`, in first-occurrence
order. -/
def dedupKeys (l : List String) : List String :=
  keepFirst l []

/-- `DataPortal.current_price` in the un-mocked branch: the best
currently-known price per requested code, omitting codes with no known
price.  The price map (`_current_price_map`, a dict keyed by code) is
modelled as `String → Option Price`; the result dict is an association
list whose keys are the distinct requested codes that are present. -/
def currentPrice (pm : String → Option Price) (codes : List String) :
    List (String × Price) :=
  (dedupKeys codes).filterMap fun c => (pm c).map fun p => (c, p)

/-- Result of `AbstractStrategy.get_recent_price_after`: the bare price
when a single code was requested, else a code-to-price mapping. -/
inductive PriceResult where
  | single (p : Int)
  | mapping (m : List (String × Int))
deriving DecidableEq, Repr

/-- One attempt's success test: every requested code is present in the
`current_price` result and its observation instant is at or after
`visible_time` (`len(cp) == len(codes)` and the `np.all` check). -/
def attemptFresh (codes : List String) (visible_time : Int)
    (cp : List (String × Price)) : Bool :=
  cp.length = codes.length &&
    codes.all fun c =>
      match cp.lookup c with
      | some p => visible_time ≤ p.time
      | none => false

/-- The value returned on a successful attempt. -/
def attemptResult (codes : List String) (cp : List (String × Price)) : PriceResult :=
  if codes.length = 1 then
    PriceResult.single ((cp.lookup (codes.headD "")).map Price.price |>.getD 0)
  else
    PriceResult.mapping
      ((dedupKeys codes).filterMap fun c => (cp.lookup c).map fun p => (c, p.price))

/-- The retry loop of `get_recent_price_after`.  `snaps i` is the state
of the price map observed by attempt number `i` (in live mode the map
may change between the one-second sleeps; in backtest it does not).
Counts the failed attempts (each of which logs a warning) alongside the
result. -/
def getRecentPriceAfterAux (codes : List String) (visible_time : Int)
    (snaps : Nat → String → Option Price) :
    Nat → Nat → Option PriceResult × Nat
  | _, 0 => (none, 0)
  | count, remaining + 1 =>
    let cp := currentPrice (snaps count) codes
    if attemptFresh codes visible_time cp then
      (some (attemptResult codes cp), 0)
    else
      let (res, warns) := getRecentPriceAfterAux codes visible_time snaps (count + 1) remaining
      (res, warns + 1)

/-- `AbstractStrategy.get_recent_price_after`: retry limit 1 in backtest
mode and 20 otherwise; returns the result and the number of warnings
logged. -/
def get_recent_price_after (is_backtest : Bool) (codes : List String)
    (visible_time : Int) (snaps : Nat → String → Option Price) :
    Option PriceResult × Nat :=
  let retry_limit : Nat := if is_backtest then 1 else 20
  getRecentPriceAfterAux codes visible_time snaps 0 retry_limit

/-- The engine's registration state: the handler map (`callback_map`, a
dict keyed by `EventDefinition` object identity, insertion-ordered) and
the insertion-ordered `event_definitions` list.  Handlers are opaque
tokens (`Nat`). -/
structure EngineState where
  callback_map : List (Nat × Nat)
  event_definitions : List EventDefinition
deriving DecidableEq, Repr

/-- `Engine.register_event`: fails when the definition is already a key
of `callback_map`; otherwise inserts into the map and appends to the
definition list. -/
def EngineState.register_event (st : EngineState) (ed : EventDefinition)
    (callback : Nat) : Except String EngineState :=
  if (st.callback_map.lookup ed.id).isSome then
    Except.error "wrong event definition"
  else
    Except.ok
      { callback_map := st.callback_map ++ [(ed.id, callback)]
        event_definitions := st.event_definitions ++ [ed] }

/-- `Engine.callback_for`: the dict lookup `callback_map[event_definition]`;
`none` models the `KeyError` raised for an unregistered definition. -/
def EngineState.callback_for (st : EngineState) (ed : EventDefinition) : Option Nat :=
  st.callback_map.lookup ed.id

/-- Outcome of a backtest run: the final account, the events that were
dispatched (in order), and whether `account.save()` was reached. -/
structure BacktestOutcome (α : Type) where
  account : α
  dispatched : List Event
  saved : Bool
deriving Repr

/-- The `while event is not None` dispatch loop of `Engine.run_backtest`:
pop events off the line in order; a handler exception
(`Except.error`) is caught and logged, leaving the account as the
handler left it (modelled: unchanged) and continuing with the next
event.  `fuel` bounds the iterations; the driver passes the exact
buffer length. -/
def runEventsFuel {α : Type} (handler : Event → α → Except String α) :
    Nat → EventLine → α → α × List Event
  | 0, _, acc => (acc, [])
  | fuel + 1, el, acc =>
    match el.pop_event with
    | (none, _) => (acc, [])
    | (some e, el') =>
      let acc' := match handler e acc with
        | Except.ok a => a
        | Except.error _ => acc
      let r := runEventsFuel handler fuel el' acc'
      (r.1, e :: r.2)

/-- The tail of `Engine.run_backtest` after the event line has been
filled: dispatch until the line is empty, then persist the account. -/
def run_backtest_dispatch {α : Type} (handler : Event → α → Except String α)
    (el : EventLine) (acc : α) : BacktestOutcome α :=
  let r := runEventsFuel handler el.events.length el acc
  { account := r.1, dispatched := r.2, saved := true }

/-- One row of a bulk historical query (`df.iterrows()`): keyed by
(visible time, code), with the remaining columns as an association
list. -/
structure DataRow where
  visible_time : Int
  code : String
  values : List (String × Int)
deriving DecidableEq, Repr

/-- Column access `data[name]`; a missing column is a `KeyError`. -/
def getCol (row : DataRow) (name : String) : Except String Int :=
  match row.values.lookup name with
  | some v => Except.ok v
  | none => Except.error ("KeyError: " ++ name)

/-- `ed.ts_type_name` as used when constructing payloads. -/
def tsName (ed : EventDefinition) : String :=
  ed.ts_type_name.getD ""

/-- The bar branch of the data-event expansion in
`EventProducer.history_events`: emit the bar event, then the synthetic
ticks selected by the `BarEventConfig`. -/
def barRowEvents (ed : EventDefinition) (cfg : BarEventConfig)
    (market_opens market_closes : List Int) (row : DataRow) :
    Except String (List Event) := do
  let start_time ←
    match row.values.lookup "start_time" with
    | some v => Except.ok v
    | none => getCol row "date"
  let op ← getCol row "open"
  let hi ← getCol row "high"
  let lo ← getCol row "low"
  let cl ← getCol row "close"
  let vol ← getCol row "volume"
  let bar : Bar :=
    { ts_type_name := tsName ed, visible_time := row.visible_time, code := row.code
      start_time := start_time, open_price := op, high_price := hi, low_price := lo
      close_price := cl, volume := vol }
  let evs0 := [Event.mk ed row.visible_time (EventData.bar bar)]
  let evs1 :=
    if cfg.market_open_as_tick && ! cfg.bar_open_as_tick &&
        market_opens.contains bar.start_time then
      evs0 ++ [Event.mk ed (bar.start_time + cfg.market_open_as_tick_delta)
        (EventData.tick
          { ts_type_name := tsName ed, visible_time := row.visible_time
            code := row.code, price := bar.open_price, size := -1 })]
    else evs0
  let evs2 :=
    if cfg.bar_open_as_tick then
      let tick_visible_time := bar.start_time + cfg.bar_open_as_tick_delta
      evs1 ++ [Event.mk ed tick_visible_time
        (EventData.tick
          { ts_type_name := tsName ed, visible_time := tick_visible_time
            code := row.code, price := bar.open_price, size := -1 })]
    else evs1
  let evs3 :=
    if cfg.market_close_as_tick && market_closes.contains bar.visible_time then
      evs2 ++ [Event.mk ed (row.visible_time + cfg.market_close_as_tick_delta)
        (EventData.tick
          { ts_type_name := tsName ed, visible_time := row.visible_time
            code := row.code, price := bar.close_price, size := -1 })]
    else evs2
  Except.ok evs3

/-- Per-row dispatch on the data-shape tag of the definition. -/
def rowEvents (ed : EventDefinition) (market_opens market_closes : List Int)
    (row : DataRow) : Except String (List Event) :=
  match ed.event_data_type with
  | some EventDataType.BAR =>
    match ed.bar_config with
    | none => Except.error "AttributeError: bar_config"
    | some cfg => barRowEvents ed cfg market_opens market_closes row
  | some EventDataType.TICK => do
    let price ← getCol row "price"
    let size ← getCol row "size"
    let t : Tick :=
      { ts_type_name := tsName ed, visible_time := row.visible_time
        code := row.code, price := price, size := size }
    Except.ok [Event.mk ed t.visible_time (EventData.tick t)]
  | _ => Except.ok [Event.mk ed row.visible_time (EventData.table row.values)]

/-- All data events of one definition over its queried rows. -/
def dataEventsForEd (ed : EventDefinition) (market_opens market_closes : List Int) :
    List DataRow → Except String (List Event)
  | [] => Except.ok []
  | r :: rest => do
    let evs ← rowEvents ed market_opens market_closes r
    let more ← dataEventsForEd ed market_opens market_closes rest
    Except.ok (evs ++ more)

/-- All data events over all data-triggered definitions; `feed` models
the time-series repository's `history_data` per feed name. -/
def dataEventsAll (market_opens market_closes : List Int)
    (feed : String → List DataRow) : List EventDefinition → Except String (List Event)
  | [] => Except.ok []
  | ed :: rest => do
    let evs ← dataEventsForEd ed market_opens market_closes (feed (tsName ed))
    let more ← dataEventsAll market_opens market_closes feed rest
    Except.ok (evs ++ more)

/-- One minute of the time-event expansion: walk the time-triggered
definitions in order, rejecting any with a second-level offset, and
emit an event for each rule that fires at `p`.  Rule cache state is
keyed by the definition's identity token. -/
def stepEds : List EventDefinition → TradingCalendar → Int → (Nat → Option Int) →
    Except String (List Event × (Nat → Option Int))
  | [], _, _, sts => Except.ok ([], sts)
  | ed :: rest, cal, p, sts =>
    match ed.time_rule with
    | none => Except.error "AttributeError: time_rule"
    | some r =>
      if r.second_offset ≠ 0 then
        Except.error "second-level offset not allowed for backtest time events"
      else
        let m := r.is_match cal p (sts ed.id)
        let sts' := fun i => if i = ed.id then m.2 else sts i
        match stepEds rest cal p sts' with
        | Except.error e => Except.error e
        | Except.ok (evs, sts'') =>
          Except.ok ((if m.1 then [Event.mk ed p (EventData.table [])] else []) ++ evs, sts'')

/-- The `while p <= end` minute loop, with fuel.  The driver passes
enough fuel that it is the guard, never the fuel, that stops the
loop. -/
def timeEventsFuel (eds : List EventDefinition) (cal : TradingCalendar) (endT : Int) :
    Nat → Int → (Nat → Option Int) → Except String (List Event)
  | 0, _, _ => Except.ok []
  | fuel + 1, p, sts =>
    if p ≤ endT then
      match stepEds eds cal p sts with
      | Except.error e => Except.error e
      | Except.ok (evs, sts') =>
        match timeEventsFuel eds cal endT fuel (p + 60) sts' with
        | Except.error e => Except.error e
        | Except.ok rest => Except.ok (evs ++ rest)
    else Except.ok []

/-- The time-event half of `EventProducer.history_events`. -/
def timeEvents (eds : List EventDefinition) (cal : TradingCalendar)
    (start endT : Int) : Except String (List Event) :=
  timeEventsFuel eds cal endT (endT + 60 - start).toNat start (fun _ => none)

/-- `Scope`. -/
structure Scope where
  codes : List String
  trading_calendar : TradingCalendar

/-- The market-open instants precomputed by `history_events`: the
calendar's opens shifted back one minute, restricted to the range. -/
def marketOpensIn (cal : TradingCalendar) (start endT : Int) : List Int :=
  (cal.opens.map fun t => t - 60).filter fun t => start ≤ t && t ≤ endT

/-- The market-close instants restricted to the range. -/
def marketClosesIn (cal : TradingCalendar) (start endT : Int) : List Int :=
  cal.closes.filter fun t => start ≤ t && t ≤ endT

/-- `EventProducer.history_events`: time events from the minute walk,
then data events from the bulk queries; the two lists are concatenated
unsorted. -/
def historyEvents (eds : List EventDefinition) (scope : Scope)
    (feed : String → List DataRow) (start endT : Int) : Except String (List Event) := do
  let timeEds := eds.filter fun ed => ed.ed_type == EventDefinitionType.TIME
  let dataEds := eds.filter fun ed => ed.ed_type == EventDefinitionType.DATA
  let timePart ←
    if timeEds.length > 0 then timeEvents timeEds scope.trading_calendar start endT
    else Except.ok []
  let dataPart ←
    if dataEds.length > 0 then
      dataEventsAll (marketOpensIn scope.trading_calendar start endT)
        (marketClosesIn scope.trading_calendar start endT) feed dataEds
    else Except.ok []
  Except.ok (timePart ++ dataPart)

/-- Whether an `Except` computation raised. -/
def isErr {ε α : Type} : Except ε α → Bool
  | Except.error _ => true
  | Except.ok _ => false

/-- Repeated evaluation of `Rule.is_match` over a sequence of query
instants, threading the cached `_next_time` state; returns the results
and the final cache. -/
def isMatchRun (r : Rule) (cal : TradingCalendar) :
    List Int → Option Int → List Bool × Option Int
  | [], st => ([], st)
  | t :: ts, st =>
    let m := r.is_match cal t st
    let rest := isMatchRun r cal ts m.2
    (m.1 :: rest.1, rest.2)

/-! ## Concrete fixtures used by witnesses and counterexamples -/

/-- A calendar whose sessions open 100 s and close 200 s after any query. -/
def calW : TradingCalendar :=
  { next_open := fun t => t + 100, next_close := fun t => t + 200
    opens := [], closes := [] }

/-- A calendar for the market-open scenario: the (one-minute-late
convention) next open is at `660` for instants before the true open at
`600`, and the following session's is at `87060`. -/
def calC3 : TradingCalendar :=
  { next_open := fun t => if t < 600 then 660 else 87060
    next_close := fun t => t + 200, opens := [], closes := [] }

/-- A market-close rule, 30-minute offset (the built-in net-value rule). -/
def ruleW : Rule := { kind := RuleKind.marketClose, minute_offset := 30, second_offset := 0 }

/-- A time-triggered definition whose rule has a second-level offset. -/
def edBadW : EventDefinition :=
  { id := 1, ed_type := EventDefinitionType.TIME
    time_rule := some { kind := RuleKind.marketClose, minute_offset := 30, second_offset := 5 } }

/-- A bar-feed data-triggered definition (the match feed of a backtest). -/
def edBarW : EventDefinition :=
  { id := 2, ed_type := EventDefinitionType.DATA, ts_type_name := some "ibBar"
    event_data_type := some EventDataType.BAR, order := -10 }

/-- A concrete bar row: visible at 1000, starting at 940. -/
def rowW : DataRow :=
  { visible_time := 1000, code := "A"
    values := [("start_time", 940), ("open", 5), ("high", 9), ("low", 1),
      ("close", 7), ("volume", 100)] }

/-- A scope over one instrument and the simple calendar. -/
def scopeW : Scope := { codes := ["A"], trading_calendar := calW }

/-- An empty feed. -/
def feedEmpty : String → List DataRow := fun _ => []

/-- Price-map snapshots with no price ever known. -/
def snapsNone : Nat → String → Option Price := fun _ _ => none

/-- Price-map snapshots where every code always has a price observed at
instant 50. -/
def snapsFresh : Nat → String → Option Price := fun _ c => some { code := c, price := 42, time := 50 }

/-! ## Properties of the event order -/

/-- Numeric rank of a trigger kind for stating the order: data-triggered
definitions rank below time-triggered ones. -/
def edRank : EventDefinitionType → Int
  | EventDefinitionType.DATA => 0
  | EventDefinitionType.TIME => 1

lemma compareTo_neg_iff (a b : EventDefinition) :
    a.compareTo b < 0 ↔
      edRank a.ed_type < edRank b.ed_type ∨
        (edRank a.ed_type = edRank b.ed_type ∧ a.order < b.order) := by
  cases ha : a.ed_type <;> cases hb : b.ed_type <;>
    simp [EventDefinition.compareTo, ha, hb, edRank]

lemma lt_iff (a b : Event) :
    Event.lt a b = true ↔
      a.visible_time < b.visible_time ∨
        (a.visible_time = b.visible_time ∧
          (edRank a.event_definition.ed_type < edRank b.event_definition.ed_type ∨
            (edRank a.event_definition.ed_type = edRank b.event_definition.ed_type ∧
              a.event_definition.order < b.event_definition.order))) := by
  unfold Event.lt
  split_ifs with h <;> simp [h, compareTo_neg_iff]

lemma le_iff (a b : Event) :
    Event.le a b = true ↔
      a.visible_time < b.visible_time ∨
        (a.visible_time = b.visible_time ∧
          (edRank a.event_definition.ed_type < edRank b.event_definition.ed_type ∨
            (edRank a.event_definition.ed_type = edRank b.event_definition.ed_type ∧
              a.event_definition.order ≤ b.event_definition.order))) := by
  rw [Event.le, Bool.not_eq_true', ← Bool.not_eq_true, lt_iff]
  constructor
  · intro h
    omega
  · intro h
    omega

lemma le_trans_b (a b c : Event) (hab : Event.le a b = true)
    (hbc : Event.le b c = true) : Event.le a c = true := by
  rw [le_iff] at hab hbc ⊢
  omega

lemma le_total_b (a b : Event) : (Event.le a b || Event.le b a) = true := by
  rw [Bool.or_eq_true, le_iff, le_iff]
  omega

/-- The buffer is sorted after `add_all`. -/
lemma add_all_pairwise (el : EventLine) (evs : List Event) :
    (el.add_all evs).events.Pairwise fun a b => Event.le a b = true := by
  exact List.sorted_mergeSort le_trans_b le_total_b (el.events ++ evs)

/-- `add_all` permutes the old buffer plus the new events. -/
lemma add_all_perm (el : EventLine) (evs : List Event) :
    (el.add_all evs).events.Perm (el.events ++ evs) :=
  List.mergeSort_perm (el.events ++ evs) Event.le

/-- Stability of `add_all`: a sorted sublist survives the re-sort. -/
lemma add_all_stable (el : EventLine) (evs : List Event) {c : List Event}
    (hc : c.Pairwise fun a b => Event.le a b = true)
    (hsub : c.Sublist (el.events ++ evs)) :
    c.Sublist (el.add_all evs).events :=
  List.sublist_mergeSort le_trans_b le_total_b hc hsub

/-- The backtest dispatch loop visits exactly the buffered events, in
buffer order, regardless of handler failures. -/
lemma runEventsFuel_dispatched {α : Type} (handler : Event → α → Except String α) :
    ∀ (l : List Event) (acc : α),
      (runEventsFuel handler l.length (EventLine.mk l) acc).2 = l := by
  intro l
  induction l with
  | nil => intro acc; rfl
  | cons e rest ih =>
    intro acc
    simp only [List.length_cons, runEventsFuel, EventLine.pop_event]
    simp [ih]

/-- C1: events are totally ordered with visible time as the primary
ascending key; at equal visible time a data-triggered event precedes a
time-triggered one, and within one trigger kind the smaller tie-break
order precedes; the buffer produced by `add_all` — and hence the
backtest dispatch stream — respects this order (no later element is
`__lt__`-below an earlier one). -/
theorem C1_event_total_order :
    (∀ a b : Event, Event.lt a b = true ↔
      (a.visible_time < b.visible_time ∨
        (a.visible_time = b.visible_time ∧
          ((a.event_definition.ed_type = EventDefinitionType.DATA ∧
              b.event_definition.ed_type = EventDefinitionType.TIME) ∨
            (a.event_definition.ed_type = b.event_definition.ed_type ∧
              a.event_definition.order < b.event_definition.order))))) ∧
    (∀ (el : EventLine) (evs : List Event),
      (el.add_all evs).events.Pairwise fun a b => Event.lt b a = false) ∧
    (∀ (α : Type) (handler : Event → α → Except String α) (el : EventLine)
        (evs : List Event) (acc : α),
      (run_backtest_dispatch handler (el.add_all evs) acc).dispatched.Pairwise
        fun a b => Event.lt b a = false) := by
  have horder : ∀ (el : EventLine) (evs : List Event),
      (el.add_all evs).events.Pairwise fun a b => Event.lt b a = false := by
    intro el evs
    refine (add_all_pairwise el evs).imp ?_
    intro a b h
    rw [Event.le, Bool.not_eq_true'] at h
    exact h
  refine ⟨?_, horder, ?_⟩
  · intro a b
    rw [lt_iff]
    cases ha : a.event_definition.ed_type <;> cases hb : b.event_definition.ed_type <;>
      simp [edRank, ha, hb]
  · intro α handler el evs acc
    have hd : (run_backtest_dispatch handler (el.add_all evs) acc).dispatched =
        (el.add_all evs).events := by
      unfold run_backtest_dispatch
      exact runEventsFuel_dispatched handler (el.add_all evs).events acc
    rw [hd]
    exact horder el evs

/-- C9: `add_all` appends the given events and stably re-sorts the whole
buffer by the event order (the result is a permutation of old ++ new,
is sorted, and equal-ranked events keep their relative insertion
order); `pop_event` returns and removes the front — hence, on a sorted
buffer, earliest — event, and signals `none` on an empty buffer,
leaving it empty. -/
theorem C9_eventline_add_pop (el : EventLine) (evs : List Event) :
    ((el.add_all evs).events.Perm (el.events ++ evs) ∧
      (el.add_all evs).events.Pairwise fun a b => Event.le a b = true) ∧
    (∀ e1 e2 : Event, Event.lt e1 e2 = false → Event.lt e2 e1 = false →
      [e1, e2].Sublist (el.events ++ evs) →
      [e1, e2].Sublist (el.add_all evs).events) ∧
    ((EventLine.mk []).pop_event = (none, EventLine.mk []) ∧
      ∀ (e : Event) (rest : List Event),
        (EventLine.mk (e :: rest)).pop_event = (some e, EventLine.mk rest)) ∧
    (∀ (e : Event) (el' : EventLine),
      (el.events.Pairwise fun a b => Event.le a b = true) →
      el.pop_event = (some e, el') → ∀ x ∈ el'.events, Event.le e x = true) := by
  refine ⟨⟨add_all_perm el evs, add_all_pairwise el evs⟩, ?_, ⟨rfl, fun e rest => rfl⟩, ?_⟩
  · intro e1 e2 h12 h21 hsub
    refine add_all_stable el evs ?_ hsub
    refine List.pairwise_pair.mpr ?_
    rw [Event.le, h21]
    rfl
  · intro e el' hsorted hpop x hx
    match hel : el.events with
    | [] =>
      rw [EventLine.pop_event] at hpop
      simp [hel] at hpop
    | a :: rest =>
      rw [EventLine.pop_event] at hpop
      rw [hel] at hpop hsorted
      simp only [Prod.mk.injEq, Option.some.injEq] at hpop
      obtain ⟨rfl, rfl⟩ := hpop
      exact (List.pairwise_cons.mp hsorted).1 x hx

/-- C5: the backtest dispatch loop catches per-event handler failures and
continues, terminating exactly when the event line is empty, after
which the account is persisted: every buffered event is dispatched, in
order, for every handler (including ones that fail on some or all
events), and the saved flag is always reached. -/
theorem C5_backtest_runs_to_completion (α : Type)
    (handler : Event → α → Except String α) (el : EventLine) (acc : α) :
    (run_backtest_dispatch handler el acc).saved = true ∧
    (run_backtest_dispatch handler el acc).dispatched = el.events := by
  refine ⟨rfl, ?_⟩
  unfold run_backtest_dispatch
  exact runEventsFuel_dispatched handler el.events acc

/-- C6: `is_match` is idempotent between firings: with a cached
next-trigger instant `nt`, any sequence of queries at instants that
have not reached `nt` returns `false` every time and leaves the cache
unchanged. -/
theorem C6_is_match_idempotent (r : Rule) (cal : TradingCalendar) (nt : Int)
    (ts : List Int) (h : ∀ t ∈ ts, t < nt) :
    isMatchRun r cal ts (some nt) = (ts.map fun _ => false, some nt) := by
  induction ts with
  | nil => rfl
  | cons t ts ih =>
    have ht : t < nt := h t (List.mem_cons_self t ts)
    have hstep : r.is_match cal t (some nt) = (false, some nt) := by
      simp [Rule.is_match, show ¬ nt ≤ t from by omega]
    rw [isMatchRun]
    rw [hstep]
    simp only [List.map_cons]
    rw [ih fun t' ht' => h t' (List.mem_cons_of_mem t ht')]

/-- C6 witness: three queries below the cached trigger at 10 all return
false and leave the cache at 10. -/
theorem C6_witness :
    isMatchRun ruleW calW [5, 3, 4] (some 10) = ([false, false, false], some 10) :=
  C6_is_match_idempotent ruleW calW 10 [5, 3, 4] (by decide)

/-- C3: the market-open rule's next trigger is the calendar's next open
shifted by the offset with the one-minute backward correction; when
that naive instant is not strictly after `now` it is instead the
following session's open with the same shift; provided the calendar
moves strictly forward and the offset does not exceed the session gap,
the returned instant is strictly after `now`. -/
theorem C3_market_open_next_time (cal : TradingCalendar) (mo so t : Int)
    (h1 : t < cal.next_open t)
    (h2 : 0 < (cal.next_open (cal.next_open t) - cal.next_open t) +
      (60 * (mo - 1) + so)) :
    ((Rule.mk RuleKind.marketOpen mo so).next_time cal t =
      if cal.next_open t + 60 * (mo - 1) + so ≤ t then
        cal.next_open (cal.next_open t) + 60 * (mo - 1) + so
      else cal.next_open t + 60 * (mo - 1) + so) ∧
    t < (Rule.mk RuleKind.marketOpen mo so).next_time cal t := by
  constructor
  · rfl
  · rw [Rule.next_time]
    simp only
    split_ifs with hle
    · omega
    · omega

lemma keepFirst_eq_self :
    ∀ (l seen : List String), l.Nodup → (∀ c ∈ l, seen.contains c = false) →
      keepFirst l seen = l := by
  intro l
  induction l with
  | nil => intro seen _ _; rfl
  | cons c rest ih =>
    intro seen hnd hseen
    obtain ⟨hc, hrest⟩ := List.nodup_cons.mp hnd
    rw [keepFirst, hseen c (List.mem_cons_self c rest)]
    simp only [Bool.false_eq_true, if_false]
    rw [ih (c :: seen) hrest]
    intro c' hc'
    simp only [List.contains_cons, Bool.or_eq_false_iff]
    refine ⟨?_, hseen c' (List.mem_cons_of_mem c hc')⟩
    simp only [beq_eq_false_iff_ne, ne_eq]
    intro hcc
    exact hc (hcc ▸ hc')

lemma dedupKeys_eq_self {l : List String} (h : l.Nodup) : dedupKeys l = l :=
  keepFirst_eq_self l [] h (fun _ _ => rfl)

/-- For duplicate-free code lists, the code's success check — every
requested code present in `current_price` and observed at or after
`visible_time` — is exactly freshness of the underlying price map. -/
lemma attemptFresh_iff (pm : String → Option Price) (vt : Int) :
    ∀ (codes : List String), codes.Nodup →
      (attemptFresh codes vt (currentPrice pm codes) = true ↔
        ∀ c ∈ codes, ∃ p, pm c = some p ∧ vt ≤ p.time) := by
  have key : ∀ (codes : List String), codes.Nodup →
      (attemptFresh codes vt
          (codes.filterMap fun c => (pm c).map fun p => (c, p)) = true ↔
        ∀ c ∈ codes, ∃ p, pm c = some p ∧ vt ≤ p.time) := by
    intro codes
    induction codes with
    | nil => intro _; simp [attemptFresh]
    | cons c rest ih =>
      intro hnd
      obtain ⟨hc, hrest⟩ := List.nodup_cons.mp hnd
      rw [List.filterMap_cons]
      cases hpc : pm c with
      | none =>
        simp only [Option.map_none']
        constructor
        · intro h
          exfalso
          rw [attemptFresh, Bool.and_eq_true, decide_eq_true_iff] at h
          have hle := List.length_filterMap_le
            (fun c => (pm c).map fun p => (c, p)) rest
          rw [h.1] at hle
          simp at hle
        · intro h
          exfalso
          obtain ⟨p, hp, _⟩ := h c (List.mem_cons_self c rest)
          rw [hpc] at hp
          cases hp
      | some p =>
        simp only [Option.map_some']
        have hlookup : ∀ c' ∈ rest,
            (((c, p) :: rest.filterMap fun c => (pm c).map fun p => (c, p)).lookup c') =
              ((rest.filterMap fun c => (pm c).map fun p => (c, p)).lookup c') := by
          intro c' hc'
          rw [List.lookup_cons]
          have : (c' == c) = false := by
            simp only [beq_eq_false_iff_ne, ne_eq]
            intro hcc
            exact hc (hcc ▸ hc')
          rw [this]
        constructor
        · intro h
          rw [attemptFresh, Bool.and_eq_true, decide_eq_true_iff,
            List.all_eq_true] at h
          obtain ⟨hlen, hall⟩ := h
          intro c' hc'
          rcases List.mem_cons.mp hc' with rfl | hc'
          · refine ⟨p, hpc, ?_⟩
            have := hall c' (List.mem_cons_self c' rest)
            rw [List.lookup_cons] at this
            simp only [BEq.refl] at this
            exact decide_eq_true_eq.mp this
          · have hfresh : attemptFresh rest vt
                (rest.filterMap fun c => (pm c).map fun p => (c, p)) = true := by
              rw [attemptFresh, Bool.and_eq_true, decide_eq_true_iff,
                List.all_eq_true]
              constructor
              · have := hlen
                simp only [List.length_cons] at this
                omega
              · intro x hx
                have := hall x (List.mem_cons_of_mem c hx)
                rw [hlookup x hx] at this
                exact this
            exact (ih hrest).mp hfresh c' hc'
        · intro h
          rw [attemptFresh, Bool.and_eq_true, decide_eq_true_iff, List.all_eq_true]
          have hihr := (ih hrest).mpr fun c' hc' => h c' (List.mem_cons_of_mem c hc')
          rw [attemptFresh, Bool.and_eq_true, decide_eq_true_iff,
            List.all_eq_true] at hihr
          constructor
          · simp [hihr.1]
          · intro x hx
            rcases List.mem_cons.mp hx with rfl | hx
            · rw [List.lookup_cons]
              simp only [BEq.refl]
              obtain ⟨q, hq, hqt⟩ := h x (List.mem_cons_self x rest)
              rw [hpc] at hq
              cases hq
              exact decide_eq_true hqt
            · rw [hlookup x hx]
              exact hihr.2 x hx
  intro codes hnd
  rw [currentPrice, dedupKeys_eq_self hnd]
  exact key codes hnd

/-- When no attempt in the window succeeds, the retry loop returns no
result and counts one warning per attempt. -/
lemma getRecentPriceAfterAux_none (codes : List String) (vt : Int)
    (snaps : Nat → String → Option Price) :
    ∀ (rem count : Nat),
      (∀ i, count ≤ i → i < count + rem →
        attemptFresh codes vt (currentPrice (snaps i) codes) = false) →
      getRecentPriceAfterAux codes vt snaps count rem = (none, rem) := by
  intro rem
  induction rem with
  | zero => intro count _; rfl
  | succ n ih =>
    intro count h
    rw [getRecentPriceAfterAux]
    rw [h count (Nat.le_refl _) (by omega)]
    simp only [Bool.false_eq_true, if_false]
    rw [ih (count + 1) fun i h1 h2 => h i (by omega) (by omega)]

/-- A successful return comes from some attempt in the window whose
success test passed, and carries that attempt's result value. -/
lemma getRecentPriceAfterAux_some (codes : List String) (vt : Int)
    (snaps : Nat → String → Option Price) :
    ∀ (rem count : Nat) (r : PriceResult) (w : Nat),
      getRecentPriceAfterAux codes vt snaps count rem = (some r, w) →
      ∃ i, count ≤ i ∧ i < count + rem ∧
        attemptFresh codes vt (currentPrice (snaps i) codes) = true ∧
        r = attemptResult codes (currentPrice (snaps i) codes) := by
  intro rem
  induction rem with
  | zero =>
    intro count r w h
    simp [getRecentPriceAfterAux] at h
  | succ n ih =>
    intro count r w h
    rw [getRecentPriceAfterAux] at h
    by_cases hf : attemptFresh codes vt (currentPrice (snaps count) codes) = true
    · rw [if_pos hf] at h
      refine ⟨count, Nat.le_refl _, by omega, hf, ?_⟩
      have := congrArg Prod.fst h
      simp only at this
      exact (Option.some.injEq _ _ ▸ this).symm
    · rw [if_neg hf] at h
      rcases he : getRecentPriceAfterAux codes vt snaps (count + 1) n with ⟨res, warns⟩
      rw [he] at h
      simp only [Prod.mk.injEq] at h
      obtain ⟨i, h1, h2, h3, h4⟩ := ih (count + 1) r warns (by rw [he, h.1])
      exact ⟨i, by omega, by omega, h3, h4⟩

/-- The successful result is a bare price for a single requested code
and a mapping otherwise. -/
lemma attemptResult_shape (codes : List String) (cp : List (String × Price)) :
    (codes.length = 1 → ∃ p, attemptResult codes cp = PriceResult.single p) ∧
    (codes.length ≠ 1 → ∃ m, attemptResult codes cp = PriceResult.mapping m) := by
  constructor
  · intro h
    rw [attemptResult, if_pos h]
    exact ⟨_, rfl⟩
  · intro h
    rw [attemptResult, if_neg h]
    exact ⟨_, rfl⟩

/-- C4: `get_recent_price_after` retries up to 1 attempt in backtest
mode and 20 otherwise; if no attempt in that window finds every
requested code with a price observed at or after `visible_time` it
returns no result, with one warning per failed attempt; a successful
return implies some attempt found all codes fresh, and yields a bare
price when exactly one code was requested and a mapping otherwise. -/
theorem C4_price_wait_retry (is_backtest : Bool) (codes : List String) (vt : Int)
    (snaps : Nat → String → Option Price) (hnd : codes.Nodup) :
    ((∀ i < (if is_backtest then (1 : Nat) else 20),
        ¬ ∀ c ∈ codes, ∃ p, snaps i c = some p ∧ vt ≤ p.time) →
      get_recent_price_after is_backtest codes vt snaps =
        (none, if is_backtest then 1 else 20)) ∧
    (∀ (r : PriceResult) (w : Nat),
      get_recent_price_after is_backtest codes vt snaps = (some r, w) →
      (∃ i < (if is_backtest then (1 : Nat) else 20),
        ∀ c ∈ codes, ∃ p, snaps i c = some p ∧ vt ≤ p.time) ∧
      (codes.length = 1 → ∃ p, r = PriceResult.single p) ∧
      (codes.length ≠ 1 → ∃ m, r = PriceResult.mapping m)) := by
  constructor
  · intro h
    rw [get_recent_price_after]
    refine getRecentPriceAfterAux_none codes vt snaps _ 0 fun i h0 hi => ?_
    rw [← Bool.not_eq_true]
    intro hT
    exact h i (by omega) ((attemptFresh_iff (snaps i) vt codes hnd).mp hT)
  · intro r w h
    rw [get_recent_price_after] at h
    obtain ⟨i, h0, hi, hfresh, hr⟩ :=
      getRecentPriceAfterAux_some codes vt snaps _ 0 r w h
    refine ⟨⟨i, by omega, (attemptFresh_iff (snaps i) vt codes hnd).mp hfresh⟩, ?_, ?_⟩
    · intro hlen
      obtain ⟨p, hp⟩ := (attemptResult_shape codes (currentPrice (snaps i) codes)).1 hlen
      exact ⟨p, hr.trans hp⟩
    · intro hlen
      obtain ⟨m, hm⟩ := (attemptResult_shape codes (currentPrice (snaps i) codes)).2 hlen
      exact ⟨m, hr.trans hm⟩

/-- C4 witness: two codes, retry limit 1 (backtest), no price ever
present: no result after exactly one attempt, one warning. -/
theorem C4_witness :
    get_recent_price_after true ["A", "B"] 60 snapsNone = (none, 1) :=
  (C4_price_wait_retry true ["A", "B"] 60 snapsNone (by decide)).1
    (by
      intro i _ h
      obtain ⟨p, hp, _⟩ := h "A" (by simp)
      simp [snapsNone] at hp)

/-- C8: registering the same `EventDefinition` object twice fails;
looking up the handler of a definition that was never registered finds
no entry; a successful registration appends to both the handler map and
the insertion-ordered definition list, and the definition then resolves
to its handler. -/
theorem C8_registration (st : EngineState) (ed : EventDefinition) (cb cb' : Nat) :
    (∀ st', st.register_event ed cb = Except.ok st' →
      isErr (st'.register_event ed cb') = true ∧
      st'.callback_map = st.callback_map ++ [(ed.id, cb)] ∧
      st'.event_definitions = st.event_definitions ++ [ed] ∧
      st'.callback_for ed = some cb) ∧
    ((∀ p ∈ st.callback_map, p.1 ≠ ed.id) → st.callback_for ed = none) := by
  constructor
  · intro st' hok
    rw [EngineState.register_event] at hok
    by_cases hmem : (st.callback_map.lookup ed.id).isSome
    · rw [if_pos hmem] at hok
      cases hok
    · rw [if_neg hmem] at hok
      have hst' : st' =
          { callback_map := st.callback_map ++ [(ed.id, cb)]
            event_definitions := st.event_definitions ++ [ed] } := by
        cases hok
        rfl
      subst hst'
      have hnone : st.callback_map.lookup ed.id = none :=
        Option.not_isSome_iff_eq_none.mp hmem
      have hlook : (st.callback_map ++ [(ed.id, cb)]).lookup ed.id = some cb := by
        rw [List.lookup_append, hnone]
        simp
      refine ⟨?_, rfl, rfl, hlook⟩
      rw [EngineState.register_event]
      simp [hlook, isErr]
  · intro h
    rw [EngineState.callback_for]
    rw [List.lookup_eq_none_iff]
    intro p hp
    simpa using (h p hp).symm

/-- C2: a bar row processed with `bar_open_as_tick := true` and a
one-second delta (and no other synthesis flags) yields exactly one bar
event at the bar's visible time followed by exactly one tick event at
the bar's start time plus one second carrying the bar's open price. -/
theorem C2_bar_open_as_tick (ed : EventDefinition) (mos mcs : List Int)
    (row : DataRow) (st op hi lo cl vol : Int)
    (hst : row.values.lookup "start_time" = some st)
    (hop : row.values.lookup "open" = some op)
    (hhi : row.values.lookup "high" = some hi)
    (hlo : row.values.lookup "low" = some lo)
    (hcl : row.values.lookup "close" = some cl)
    (hvol : row.values.lookup "volume" = some vol) :
    barRowEvents ed { bar_open_as_tick := true, bar_open_as_tick_delta := 1 }
      mos mcs row =
      Except.ok
        [Event.mk ed row.visible_time (EventData.bar
          { ts_type_name := tsName ed, visible_time := row.visible_time
            code := row.code, start_time := st, open_price := op, high_price := hi
            low_price := lo, close_price := cl, volume := vol }),
         Event.mk ed (st + 1) (EventData.tick
          { ts_type_name := tsName ed, visible_time := st + 1
            code := row.code, price := op, size := -1 })] := by
  rw [barRowEvents]
  simp [hst, hop, hhi, hlo, hcl, hvol, getCol, Bind.bind, Except.bind]

/-- C2 witness: the concrete bar row visible at 1000 with start 940 and
open 5 expands to its bar event plus one tick at 941 priced 5. -/
theorem C2_witness :
    barRowEvents edBarW { bar_open_as_tick := true, bar_open_as_tick_delta := 1 }
      [] [] rowW =
      Except.ok
        [Event.mk edBarW 1000 (EventData.bar
          { ts_type_name := "ibBar", visible_time := 1000, code := "A"
            start_time := 940, open_price := 5, high_price := 9, low_price := 1
            close_price := 7, volume := 100 }),
         Event.mk edBarW 941 (EventData.tick
          { ts_type_name := "ibBar", visible_time := 941, code := "A"
            price := 5, size := -1 })] :=
  C2_bar_open_as_tick edBarW [] [] rowW 940 5 9 1 7 100
    (by decide) (by decide) (by decide) (by decide) (by decide) (by decide)

/-- C10: the synthetic ticks' payload timestamps versus their events'
visible times: a market-open tick event fires at (bar start + delta)
but its payload carries the bar's visible (end) time; a market-close
tick event fires at (bar visible time + delta) but its payload carries
the bar's visible time without the delta; only a bar-open tick's
payload carries the same (start + delta) instant as its event. -/
theorem C10_synthetic_tick_payload_times (ed : EventDefinition)
    (mos mcs : List Int) (row : DataRow) (st op hi lo cl vol : Int)
    (hst : row.values.lookup "start_time" = some st)
    (hop : row.values.lookup "open" = some op)
    (hhi : row.values.lookup "high" = some hi)
    (hlo : row.values.lookup "low" = some lo)
    (hcl : row.values.lookup "close" = some cl)
    (hvol : row.values.lookup "volume" = some vol) :
    (∀ d : Int, mos.contains st = true →
      barRowEvents ed
        { market_open_as_tick := true, market_open_as_tick_delta := d }
        mos mcs row =
        Except.ok
          [Event.mk ed row.visible_time (EventData.bar
            { ts_type_name := tsName ed, visible_time := row.visible_time
              code := row.code, start_time := st, open_price := op
              high_price := hi, low_price := lo, close_price := cl
              volume := vol }),
           Event.mk ed (st + d) (EventData.tick
            { ts_type_name := tsName ed, visible_time := row.visible_time
              code := row.code, price := op, size := -1 })]) ∧
    (∀ d : Int,
      barRowEvents ed
        { bar_open_as_tick := true, bar_open_as_tick_delta := d } mos mcs row =
        Except.ok
          [Event.mk ed row.visible_time (EventData.bar
            { ts_type_name := tsName ed, visible_time := row.visible_time
              code := row.code, start_time := st, open_price := op
              high_price := hi, low_price := lo, close_price := cl
              volume := vol }),
           Event.mk ed (st + d) (EventData.tick
            { ts_type_name := tsName ed, visible_time := st + d
              code := row.code, price := op, size := -1 })]) ∧
    (∀ d : Int, mcs.contains row.visible_time = true →
      barRowEvents ed
        { market_close_as_tick := true, market_close_as_tick_delta := d }
        mos mcs row =
        Except.ok
          [Event.mk ed row.visible_time (EventData.bar
            { ts_type_name := tsName ed, visible_time := row.visible_time
              code := row.code, start_time := st, open_price := op
              high_price := hi, low_price := lo, close_price := cl
              volume := vol }),
           Event.mk ed (row.visible_time + d) (EventData.tick
            { ts_type_name := tsName ed, visible_time := row.visible_time
              code := row.code, price := cl, size := -1 })]) := by
  refine ⟨?_, ?_, ?_⟩
  · intro d hmem
    have hmem' : st ∈ mos := by simpa using hmem
    rw [barRowEvents]
    simp [hst, hop, hhi, hlo, hcl, hvol, getCol, hmem', Bind.bind, Except.bind]
  · intro d
    rw [barRowEvents]
    simp [hst, hop, hhi, hlo, hcl, hvol, getCol, Bind.bind, Except.bind]
  · intro d hmem
    have hmem' : row.visible_time ∈ mcs := by simpa using hmem
    rw [barRowEvents]
    simp [hst, hop, hhi, hlo, hcl, hvol, getCol, hmem', Bind.bind, Except.bind]

/-- C10 witness: the three synthesis modes on the concrete row (visible
1000, start 940, open 5, close 7) with delta 7: the market-open tick
fires at 947 with payload time 1000, the bar-open tick fires at 947
with payload time 947, the market-close tick fires at 1007 with
payload time 1000. -/
theorem C10_witness :
    (barRowEvents edBarW
        { market_open_as_tick := true, market_open_as_tick_delta := 7 }
        [940] [1000] rowW =
      Except.ok
        [Event.mk edBarW 1000 (EventData.bar
          { ts_type_name := "ibBar", visible_time := 1000, code := "A"
            start_time := 940, open_price := 5, high_price := 9, low_price := 1
            close_price := 7, volume := 100 }),
         Event.mk edBarW 947 (EventData.tick
          { ts_type_name := "ibBar", visible_time := 1000, code := "A"
            price := 5, size := -1 })]) ∧
    (barRowEvents edBarW
        { bar_open_as_tick := true, bar_open_as_tick_delta := 7 }
        [940] [1000] rowW =
      Except.ok
        [Event.mk edBarW 1000 (EventData.bar
          { ts_type_name := "ibBar", visible_time := 1000, code := "A"
            start_time := 940, open_price := 5, high_price := 9, low_price := 1
            close_price := 7, volume := 100 }),
         Event.mk edBarW 947 (EventData.tick
          { ts_type_name := "ibBar", visible_time := 947, code := "A"
            price := 5, size := -1 })]) ∧
    (barRowEvents edBarW
        { market_close_as_tick := true, market_close_as_tick_delta := 7 }
        [940] [1000] rowW =
      Except.ok
        [Event.mk edBarW 1000 (EventData.bar
          { ts_type_name := "ibBar", visible_time := 1000, code := "A"
            start_time := 940, open_price := 5, high_price := 9, low_price := 1
            close_price := 7, volume := 100 }),
         Event.mk edBarW 1007 (EventData.tick
          { ts_type_name := "ibBar", visible_time := 1000, code := "A"
            price := 7, size := -1 })]) := by
  have h := C10_synthetic_tick_payload_times edBarW [940] [1000] rowW 940 5 9 1 7 100
    (by decide) (by decide) (by decide) (by decide) (by decide) (by decide)
  exact ⟨h.1 7 (by decide), h.2.1 7, h.2.2 7 (by decide)⟩

/-- A minute step raises as soon as some definition in the list carries
a rule with a non-zero second offset (an earlier broken definition only
raises a different error). -/
lemma stepEds_err (cal : TradingCalendar) (p : Int) :
    ∀ (eds : List EventDefinition) (sts : Nat → Option Int),
      (∃ ed ∈ eds, ∃ r, ed.time_rule = some r ∧ r.second_offset ≠ 0) →
      isErr (stepEds eds cal p sts) = true := by
  intro eds
  induction eds with
  | nil =>
    intro sts h
    obtain ⟨ed, hed, _⟩ := h
    cases hed
  | cons ed rest ih =>
    intro sts h
    cases hrule : ed.time_rule with
    | none => simp [stepEds, hrule, isErr]
    | some r =>
      by_cases hz : r.second_offset = 0
      · have hbad : ∃ ed' ∈ rest, ∃ r', ed'.time_rule = some r' ∧ r'.second_offset ≠ 0 := by
          obtain ⟨ed', hed', r', hr', hnz⟩ := h
          rcases List.mem_cons.mp hed' with rfl | hmem
          · rw [hrule] at hr'
            cases hr'
            exact absurd hz hnz
          · exact ⟨ed', hmem, r', hr', hnz⟩
        have htail := ih
          (fun i => if i = ed.id then (r.is_match cal p (sts ed.id)).2 else sts i) hbad
        cases hres : stepEds rest cal p
            (fun i => if i = ed.id then (r.is_match cal p (sts ed.id)).2 else sts i) with
        | error e => simp [stepEds, hrule, hz, hres, isErr]
        | ok out =>
          rw [hres] at htail
          simp [isErr] at htail
      · simp [stepEds, hrule, hz, isErr]

/-- A minute step succeeds when every definition in the list has a rule
with a zero second offset. -/
lemma stepEds_ok (cal : TradingCalendar) (p : Int) :
    ∀ (eds : List EventDefinition) (sts : Nat → Option Int),
      (∀ ed ∈ eds, ∃ r, ed.time_rule = some r ∧ r.second_offset = 0) →
      ∃ out, stepEds eds cal p sts = Except.ok out := by
  intro eds
  induction eds with
  | nil => intro sts _; exact ⟨([], sts), rfl⟩
  | cons ed rest ih =>
    intro sts h
    obtain ⟨r, hr, hz⟩ := h ed (List.mem_cons_self ed rest)
    obtain ⟨⟨evs, sts2⟩, hout⟩ := ih
      (fun i => if i = ed.id then (r.is_match cal p (sts ed.id)).2 else sts i)
      fun ed' h' => h ed' (List.mem_cons_of_mem ed h')
    refine ⟨((if (r.is_match cal p (sts ed.id)).1 then
        [Event.mk ed p (EventData.table [])] else []) ++ evs, sts2), ?_⟩
    simp [stepEds, hr, hz, hout]

/-- The minute loop succeeds whenever every definition is acceptable. -/
lemma timeEventsFuel_ok (eds : List EventDefinition) (cal : TradingCalendar)
    (endT : Int)
    (hgood : ∀ ed ∈ eds, ∃ r, ed.time_rule = some r ∧ r.second_offset = 0) :
    ∀ (fuel : Nat) (p : Int) (sts : Nat → Option Int),
      ∃ evs, timeEventsFuel eds cal endT fuel p sts = Except.ok evs := by
  intro fuel
  induction fuel with
  | zero => intro p sts; exact ⟨[], rfl⟩
  | succ n ih =>
    intro p sts
    by_cases hp : p ≤ endT
    · obtain ⟨⟨evs, sts2⟩, hstep⟩ := stepEds_ok cal p eds sts hgood
      obtain ⟨rest, hrest⟩ := ih (p + 60) sts2
      exact ⟨evs ++ rest, by simp [timeEventsFuel, hp, hstep, hrest]⟩
    · exact ⟨[], by simp [timeEventsFuel, hp]⟩

/-- On a non-empty range, the time-event half raises when some
definition carries a non-zero second offset. -/
lemma timeEvents_err (eds : List EventDefinition) (cal : TradingCalendar)
    (start endT : Int) (hrange : start ≤ endT)
    (hbad : ∃ ed ∈ eds, ∃ r, ed.time_rule = some r ∧ r.second_offset ≠ 0) :
    isErr (timeEvents eds cal start endT) = true := by
  rw [timeEvents]
  obtain ⟨f, hf⟩ : ∃ f, (endT + 60 - start).toNat = f + 1 := by
    have h0 : 0 < (endT + 60 - start).toNat := by omega
    exact ⟨(endT + 60 - start).toNat - 1, by omega⟩
  rw [hf]
  have hstep := stepEds_err cal start eds (fun _ => none) hbad
  cases hres : stepEds eds cal start (fun _ => none) with
  | error e => simp [timeEventsFuel, hrange, hres, isErr]
  | ok out =>
    rw [hres] at hstep
    simp [isErr] at hstep

/-- C7 (amended): over a non-empty expansion range (`start ≤ end`),
historical expansion raises whenever some time-triggered definition's
rule has a non-zero second offset; time rules with zero second offsets
are always accepted by the minute loop; and data-triggered bar rows are
expanded without error for every synthetic-tick config, second-level
deltas included, whenever the row carries its columns.  (Over an empty
range the loop body never runs, so no offset check happens.) -/
theorem C7_second_offset_check :
    (∀ (eds : List EventDefinition) (scope : Scope) (feed : String → List DataRow)
        (start endT : Int), start ≤ endT →
      (∃ ed ∈ eds, ed.ed_type = EventDefinitionType.TIME ∧
        ∃ r, ed.time_rule = some r ∧ r.second_offset ≠ 0) →
      isErr (historyEvents eds scope feed start endT) = true) ∧
    (∀ (eds : List EventDefinition) (cal : TradingCalendar) (start endT : Int),
      (∀ ed ∈ eds, ∃ r, ed.time_rule = some r ∧ r.second_offset = 0) →
      isErr (timeEvents eds cal start endT) = false) ∧
    (∀ (ed : EventDefinition) (cfg : BarEventConfig) (mos mcs : List Int)
        (row : DataRow) (st op hi lo cl vol : Int),
      row.values.lookup "start_time" = some st →
      row.values.lookup "open" = some op →
      row.values.lookup "high" = some hi →
      row.values.lookup "low" = some lo →
      row.values.lookup "close" = some cl →
      row.values.lookup "volume" = some vol →
      isErr (barRowEvents ed cfg mos mcs row) = false) := by
  refine ⟨?_, ?_, ?_⟩
  · intro eds scope feed start endT hrange hbad
    obtain ⟨ed, hed, htype, r, hr, hnz⟩ := hbad
    have hmem : ed ∈ eds.filter fun ed => ed.ed_type == EventDefinitionType.TIME :=
      List.mem_filter.mpr ⟨hed, by simp [htype]⟩
    have herr := timeEvents_err
      (eds.filter fun ed => ed.ed_type == EventDefinitionType.TIME)
      scope.trading_calendar start endT hrange ⟨ed, hmem, r, hr, hnz⟩
    have hlen : 0 < (eds.filter fun ed => ed.ed_type == EventDefinitionType.TIME).length :=
      List.length_pos.mpr fun hnil => by rw [hnil] at hmem; cases hmem
    rw [historyEvents]
    cases hres : timeEvents (eds.filter fun ed => ed.ed_type == EventDefinitionType.TIME)
        scope.trading_calendar start endT with
    | error e => simp [hlen, hres, Bind.bind, Except.bind, isErr]
    | ok v =>
      rw [hres] at herr
      simp [isErr] at herr
  · intro eds cal start endT hgood
    obtain ⟨evs, hevs⟩ :=
      timeEventsFuel_ok eds cal endT hgood ((endT + 60 - start).toNat) start (fun _ => none)
    rw [timeEvents, hevs]
    rfl
  · intro ed cfg mos mcs row st op hi lo cl vol hst hop hhi hlo hcl hvol
    rw [barRowEvents]
    simp [hst, hop, hhi, hlo, hcl, hvol, getCol, Bind.bind, Except.bind, isErr]

/-- C7 counterexample: a time-triggered definition whose rule has a
five-second offset, expanded over the empty range `[10, 0]`, raises
nothing: the claim that expansion fails whenever such a definition is
present is false for empty ranges. -/
theorem C7_counterexample :
    edBadW.ed_type = EventDefinitionType.TIME ∧
    (∃ r, edBadW.time_rule = some r ∧ r.second_offset ≠ 0) ∧
    historyEvents [edBadW] scopeW feedEmpty 10 0 = Except.ok [] := by
  refine ⟨rfl, ⟨_, rfl, by decide⟩, ?_⟩
  rfl

/-- C3 witness: offset −30 minutes queried at instant 0, ten minutes
before the session's true open at 600 (calendar convention 660): the
naive shift falls before `now`, so the rule returns 30 minutes before
the following session's true open, 87000 − 1800 = 85200 > 0. -/
theorem C3_witness :
    (Rule.mk RuleKind.marketOpen (-30) 0).next_time calC3 0 = 85200 ∧
    (0 : Int) < (Rule.mk RuleKind.marketOpen (-30) 0).next_time calC3 0 := by
  have h := C3_market_open_next_time calC3 (-30) 0 0 (by decide) (by decide)
  refine ⟨?_, h.2⟩
  rw [h.1]
  decide

end Engine2
